import Mathlib

/-
Verification of the Notation Resolution and Board State Engine of
chess_opening_trainer.py (class ChessBoard).

The embedding models Python semantics explicitly:
- a raised exception (IndexError / ValueError) is the `PRes.exn` value,
  while an ordinary `return None` is `PRes.ok none`;
- Python list indexing `xs[i]` wraps negative indices and raises when the
  index is out of range (`py_idx` / `py_set`);
- strings are lists of characters; `str.strip`, `str.replace`, `str.lower`
  and friends are modelled on the ASCII alphabet the move grammar uses.
-/

set_option maxRecDepth 4000

/-- Outcome of a Python expression or statement: a value, or a raised
exception (the engine never distinguishes exception classes: its only
handler is a bare `except Exception`). -/
inductive PRes (α : Type) where
  | ok : α → PRes α
  | exn : PRes α
deriving DecidableEq

/-- The whitespace characters removed by Python's `str.strip()`. -/
def py_is_space (c : Char) : Bool :=
  c = ' ' || c = '\t' || c = '\n' || c = '\r' || c = Char.ofNat 11 || c = Char.ofNat 12

/-- `str.strip()` on a character list: drop whitespace from both ends. -/
def py_strip (cs : List Char) : List Char :=
  ((cs.dropWhile py_is_space).reverse.dropWhile py_is_space).reverse

/-- `move.replace('+','').replace('#','').replace('!','').replace('?','')`
from parse_move: removing every occurrence of each character is one filter. -/
def strip_marks (cs : List Char) : List Char :=
  cs.filter (fun c => !(c == '+' || c == '#' || c == '!' || c == '?'))

/-- Python `str.isupper()` on the ASCII range. -/
def py_is_upper (c : Char) : Bool := 'A' ≤ c && c ≤ 'Z'

/-- Python `str.isalpha()` on the ASCII range. -/
def py_is_alpha (c : Char) : Bool := ('A' ≤ c && c ≤ 'Z') || ('a' ≤ c && c ≤ 'z')

/-- Python `str.isdigit()` on the ASCII range. -/
def py_is_digit (c : Char) : Bool := '0' ≤ c && c ≤ '9'

/-- Python `str.lower()` on a single ASCII character. -/
def py_lower (c : Char) : Char :=
  if 'A' ≤ c && c ≤ 'Z' then Char.ofNat (c.toNat + 32) else c

/-- Python `str.upper()` on a single ASCII character. -/
def py_upper (c : Char) : Char :=
  if 'a' ≤ c && c ≤ 'z' then Char.ofNat (c.toNat - 32) else c

/-- Python `int(single_character)`: the digit value, or a ValueError. -/
def py_int_char (c : Char) : PRes Int :=
  if py_is_digit c then .ok ((c.toNat : Int) - 48) else .exn

/-- Python list read `xs[i]`: negative indices count from the end, and an
index outside `[-len, len)` raises IndexError. -/
def py_idx {α : Type} (xs : List α) (i : Int) : PRes α :=
  let j : Int := if i < 0 then (xs.length : Int) + i else i
  if 0 ≤ j then
    match xs.get? j.toNat with
    | some a => .ok a
    | none => .exn
  else .exn

/-- Python list write `xs[i] = v` (same index normalization as `py_idx`). -/
def py_set {α : Type} (xs : List α) (i : Int) (v : α) : PRes (List α) :=
  let j : Int := if i < 0 then (xs.length : Int) + i else i
  if 0 ≤ j && j < (xs.length : Int) then .ok (xs.set j.toNat v) else .exn

/-- The 8x8 grid `self.board`: a list of rows, each a list of one-character
cells ('.' marks an empty square). -/
abbrev Board := List (List Char)

/-- `self.board[r][f]` as a read. -/
def cell (b : Board) (r f : Int) : PRes Char :=
  match py_idx b r with
  | .ok row => py_idx row f
  | .exn => .exn

/-- `self.board[r][f] = v`: fetch the row, update it, store it back. -/
def set_cell (b : Board) (r f : Int) (v : Char) : PRes Board :=
  match py_idx b r with
  | .ok row =>
    match py_set row f v with
    | .ok row2 => py_set b r row2
    | .exn => .exn
  | .exn => .exn

/-- The full mutable state of a ChessBoard object: the grid plus the six
castling-rights flags. -/
structure BState where
  board : Board
  white_king_moved : Bool
  black_king_moved : Bool
  white_rook_a_moved : Bool
  white_rook_h_moved : Bool
  black_rook_a_moved : Bool
  black_rook_h_moved : Bool
deriving DecidableEq

/-- The starting position written out in `ChessBoard.reset`. -/
def init_board : Board :=
  [['r', 'n', 'b', 'q', 'k', 'b', 'n', 'r'],
   ['p', 'p', 'p', 'p', 'p', 'p', 'p', 'p'],
   ['.', '.', '.', '.', '.', '.', '.', '.'],
   ['.', '.', '.', '.', '.', '.', '.', '.'],
   ['.', '.', '.', '.', '.', '.', '.', '.'],
   ['.', '.', '.', '.', '.', '.', '.', '.'],
   ['P', 'P', 'P', 'P', 'P', 'P', 'P', 'P'],
   ['R', 'N', 'B', 'Q', 'K', 'B', 'N', 'R']]

/-- The state `ChessBoard.reset` installs: starting position, all six
castling-rights flags false. -/
def reset_state : BState :=
  ⟨init_board, false, false, false, false, false, false⟩

/-- `ChessBoard.reset()`: overwrites the whole state with the start state. -/
def reset (_ : BState) : BState := reset_state

/-- `ChessBoard.square_to_coords`: file from `ord(square[0].lower()) - ord('a')`,
rank from `8 - int(square[-1])`.  Indexing an empty string or `int` on a
non-digit raises. -/
def square_to_coords (square : List Char) : PRes (Int × Int) :=
  match square.head?, square.getLast? with
  | some c0, some cl =>
    match py_int_char cl with
    | .ok n => .ok (8 - n, ((py_lower c0).toNat : Int) - 97)
    | .exn => .exn
  | _, _ => .exn

/-- `ChessBoard.coords_to_square`: `chr(file + ord('a')) + str(8 - rank)`. -/
def coords_to_square (rank file : Int) : List Char :=
  Char.ofNat (file + 97).toNat :: (toString (8 - rank)).data


/-- A disambiguation hint check: `from_X_hint is None or v == from_X_hint`. -/
def hint_match (h : Option Int) (v : Int) : Bool :=
  match h with
  | none => true
  | some x => v == x

/-- The pawn-capture candidate loop of find_piece: for each candidate file,
if `(r, f)` is on the board and holds the mover's pawn, return it; a
missing cell (ragged grid) raises like Python would. -/
def pawn_cap_scan (b : Board) (pawn_char : Char) (r : Int) :
    List Int → PRes (Option (Int × Int))
  | [] => .ok none
  | f :: fs =>
    if 0 ≤ r && r < 8 && 0 ≤ f && f < 8 then
      match cell b r f with
      | .ok c => if c = pawn_char then .ok (some (r, f)) else pawn_cap_scan b pawn_char r fs
      | .exn => .exn
    else pawn_cap_scan b pawn_char r fs

/-- White pawn double push from the starting rank (e2->e4): the guard
`to_rank == 4 and board[6][f]=='P' and board[5][f]=='.' and board[4][f]=='.'`
with Python's left-to-right short-circuit evaluation. -/
def pawn_white_double (b : Board) (to_rank to_file : Int) : PRes (Option (Int × Int)) :=
  if to_rank = 4 then
    match cell b 6 to_file with
    | .exn => .exn
    | .ok c1 =>
      if c1 = 'P' then
        match cell b 5 to_file with
        | .exn => .exn
        | .ok c2 =>
          if c2 = '.' then
            match cell b 4 to_file with
            | .exn => .exn
            | .ok c3 => if c3 = '.' then .ok (some (6, to_file)) else .ok none
          else .ok none
      else .ok none
  else .ok none

/-- White pawn single push, falling through to the double push:
`to_rank + 1 < 8 and board[to_rank+1][f]=='P' and board[to_rank][f]=='.'`. -/
def pawn_white_push (b : Board) (to_rank to_file : Int) : PRes (Option (Int × Int)) :=
  if to_rank + 1 < 8 then
    match cell b (to_rank + 1) to_file with
    | .exn => .exn
    | .ok c1 =>
      if c1 = 'P' then
        match cell b to_rank to_file with
        | .exn => .exn
        | .ok c2 =>
          if c2 = '.' then .ok (some (to_rank + 1, to_file))
          else pawn_white_double b to_rank to_file
      else pawn_white_double b to_rank to_file
  else pawn_white_double b to_rank to_file

/-- Black pawn double push from the starting rank (e7->e5). -/
def pawn_black_double (b : Board) (to_rank to_file : Int) : PRes (Option (Int × Int)) :=
  if to_rank = 3 then
    match cell b 1 to_file with
    | .exn => .exn
    | .ok c1 =>
      if c1 = 'p' then
        match cell b 2 to_file with
        | .exn => .exn
        | .ok c2 =>
          if c2 = '.' then
            match cell b 3 to_file with
            | .exn => .exn
            | .ok c3 => if c3 = '.' then .ok (some (1, to_file)) else .ok none
          else .ok none
      else .ok none
  else .ok none

/-- Black pawn single push, falling through to the double push. -/
def pawn_black_push (b : Board) (to_rank to_file : Int) : PRes (Option (Int × Int)) :=
  if 0 ≤ to_rank - 1 then
    match cell b (to_rank - 1) to_file with
    | .exn => .exn
    | .ok c1 =>
      if c1 = 'p' then
        match cell b to_rank to_file with
        | .exn => .exn
        | .ok c2 =>
          if c2 = '.' then .ok (some (to_rank - 1, to_file))
          else pawn_black_double b to_rank to_file
      else pawn_black_double b to_rank to_file
  else pawn_black_double b to_rank to_file

/-- The knight-offset loop of find_piece: first on-board offset square
holding the colored knight and matching both hints wins. -/
def knight_scan (b : Board) (piece : Char) (to_rank to_file : Int)
    (f_hint r_hint : Option Int) : List (Int × Int) → PRes (Option (Int × Int))
  | [] => .ok none
  | (dr, df) :: rest =>
    let r := to_rank + dr
    let f := to_file + df
    if 0 ≤ r && r < 8 && 0 ≤ f && f < 8 then
      match cell b r f with
      | .exn => .exn
      | .ok c =>
        if c == piece then
          if hint_match r_hint r && hint_match f_hint f then .ok (some (r, f))
          else knight_scan b piece to_rank to_file f_hint r_hint rest
        else knight_scan b piece to_rank to_file f_hint r_hint rest
    else knight_scan b piece to_rank to_file f_hint r_hint rest

/-- One sliding-piece ray of find_piece: walk outward from the destination
one step at a time while on the board; a matching piece satisfying the
hints is returned, and any other occupied square (a matching piece failing
the hints included, since the piece letter is never '.') ends the ray.
The source's while-loop runs at most 8 iterations from an on-board start,
so a fuel of 16 is never exhausted by the calls find_piece makes. -/
def ray_scan (b : Board) (piece : Char) (f_hint r_hint : Option Int)
    (dr df : Int) : Nat → Int → Int → PRes (Option (Int × Int))
  | 0, _, _ => .ok none
  | fuel + 1, r, f =>
    if 0 ≤ r && r < 8 && 0 ≤ f && f < 8 then
      match cell b r f with
      | .exn => .exn
      | .ok c =>
        if c == piece && hint_match r_hint r && hint_match f_hint f then .ok (some (r, f))
        else if c != '.' then .ok none
        else ray_scan b piece f_hint r_hint dr df fuel (r + dr) (f + df)
    else .ok none

/-- The direction loop of find_piece for bishops, rooks and queens: the
first ray (in enumeration order) yielding a match determines the origin. -/
def ray_dirs (b : Board) (piece : Char) (to_rank to_file : Int)
    (f_hint r_hint : Option Int) : List (Int × Int) → PRes (Option (Int × Int))
  | [] => .ok none
  | (dr, df) :: rest =>
    match ray_scan b piece f_hint r_hint dr df 16 (to_rank + dr) (to_file + df) with
    | .exn => .exn
    | .ok (some p) => .ok (some p)
    | .ok none => ray_dirs b piece to_rank to_file f_hint r_hint rest

/-- The king-neighbour loop of find_piece (no hint checks in the source). -/
def king_scan (b : Board) (piece : Char) (to_rank to_file : Int) :
    List (Int × Int) → PRes (Option (Int × Int))
  | [] => .ok none
  | (dr, df) :: rest =>
    let r := to_rank + dr
    let f := to_file + df
    if 0 ≤ r && r < 8 && 0 ≤ f && f < 8 then
      match cell b r f with
      | .exn => .exn
      | .ok c => if c == piece then .ok (some (r, f)) else king_scan b piece to_rank to_file rest
    else king_scan b piece to_rank to_file rest

/-- The knight offsets, in the source's enumeration order. -/
def knight_offsets : List (Int × Int) :=
  [(-2, -1), (-2, 1), (-1, -2), (-1, 2), (1, -2), (1, 2), (2, -1), (2, 1)]

/-- Bishop ray directions, in the source's enumeration order. -/
def bishop_dirs : List (Int × Int) := [(-1, -1), (-1, 1), (1, -1), (1, 1)]

/-- Rook ray directions, in the source's enumeration order. -/
def rook_dirs : List (Int × Int) := [(-1, 0), (1, 0), (0, -1), (0, 1)]

/-- Queen ray directions, in the source's enumeration order. -/
def queen_dirs : List (Int × Int) :=
  [(-1, -1), (-1, 0), (-1, 1), (0, -1), (0, 1), (1, -1), (1, 0), (1, 1)]

/-- King neighbour offsets: the source's nested `for dr / for df` loops
skipping (0,0), flattened in iteration order. -/
def king_offsets : List (Int × Int) :=
  [(-1, -1), (-1, 0), (-1, 1), (0, -1), (0, 1), (1, -1), (1, 0), (1, 1)]

/-- `ChessBoard.find_piece`: locate the origin square of the piece that can
reach (to_rank, to_file), per piece-type geometry. -/
def find_piece (piece : Char) (to_rank to_file : Int)
    (from_file_hint from_rank_hint : Option Int)
    (is_white_turn is_capture : Bool) (b : Board) : PRes (Option (Int × Int)) :=
  let piece_type := py_upper piece
  if piece_type = 'P' then
    if is_white_turn then
      let cap_res :=
        if is_capture then
          pawn_cap_scan b 'P' (to_rank + 1)
            (match from_file_hint with
             | some h => [h]
             | none => [to_file - 1, to_file + 1])
        else .ok none
      match cap_res with
      | .exn => .exn
      | .ok (some p) => .ok (some p)
      | .ok none => pawn_white_push b to_rank to_file
    else
      let cap_res :=
        if is_capture then
          pawn_cap_scan b 'p' (to_rank - 1)
            (match from_file_hint with
             | some h => [h]
             | none => [to_file - 1, to_file + 1])
        else .ok none
      match cap_res with
      | .exn => .exn
      | .ok (some p) => .ok (some p)
      | .ok none => pawn_black_push b to_rank to_file
  else if piece_type = 'N' then
    knight_scan b piece to_rank to_file from_file_hint from_rank_hint knight_offsets
  else if piece_type = 'B' then
    ray_dirs b piece to_rank to_file from_file_hint from_rank_hint bishop_dirs
  else if piece_type = 'R' then
    ray_dirs b piece to_rank to_file from_file_hint from_rank_hint rook_dirs
  else if piece_type = 'Q' then
    ray_dirs b piece to_rank to_file from_file_hint from_rank_hint queen_dirs
  else if piece_type = 'K' then
    king_scan b piece to_rank to_file king_offsets
  else .ok none


/-- Kingside-castling token test: `move in ['O-O','0-0','o-o','O-o','o-O']`. -/
def ks_castle (m : List Char) : Bool :=
  m == ['O', '-', 'O'] || m == ['0', '-', '0'] || m == ['o', '-', 'o'] ||
  m == ['O', '-', 'o'] || m == ['o', '-', 'O']

/-- Queenside-castling token test: `move in ['O-O-O','0-0-0','o-o-o']`. -/
def qs_castle (m : List Char) : Bool :=
  m == ['O', '-', 'O', '-', 'O'] || m == ['0', '-', '0', '-', '0'] ||
  m == ['o', '-', 'o', '-', 'o']

/-- The first loop over the disambiguation text: the last alphabetic
character whose lowercase falls in a..h sets the origin-file hint. -/
def last_file_hint (ds : List Char) : Option Int :=
  ds.foldl
    (fun acc ch =>
      if py_is_alpha ch && 'a' ≤ py_lower ch && py_lower ch ≤ 'h' then
        some (((py_lower ch).toNat : Int) - 97)
      else acc)
    none

/-- The second loop over the disambiguation text: the last digit sets the
origin-rank hint via the same `8 - int(ch)` rank mapping. -/
def last_rank_hint (ds : List Char) : Option Int :=
  ds.foldl
    (fun acc ch =>
      if py_is_digit ch then some (8 - ((ch.toNat : Int) - 48)) else acc)
    none

/-- The first normalization step of parse_move:
`move.strip().replace('+','').replace('#','').replace('!','').replace('?','')`. -/
def cleaned_move (mv : List Char) : List Char := strip_marks (py_strip mv)

/-- `move_part` with the capture marker removed, as a function of the
cleaned move text (the piece letter is consumed when the first character
is uppercase, then every 'x' is dropped). -/
def move_part_no_x (m : List Char) : List Char :=
  (match m with
   | [] => []
   | c0 :: rest => if py_is_upper c0 then rest else c0 :: rest).filter (fun c => c != 'x')

/-- Body of `ChessBoard.parse_move` after the strip/replace normalization:
castling short-circuit, piece letter, capture marker, destination square
(with the `try/except` around square_to_coords turned into `.ok none`),
disambiguation hints, then find_piece.  Indexing `move[0]` on an empty
cleaned move raises, exactly as in the source. -/
def parse_move_cleaned (move : List Char) (is_white_turn : Bool) (b : Board) :
    PRes (Option ((Int × Int) × (Int × Int) × Char)) :=
  if ks_castle move then
    let rank : Int := if is_white_turn then 7 else 0
    .ok (some ((rank, 4), (rank, 6), if is_white_turn then 'K' else 'k'))
  else if qs_castle move then
    let rank : Int := if is_white_turn then 7 else 0
    .ok (some ((rank, 4), (rank, 2), if is_white_turn then 'K' else 'k'))
  else
    match move with
    | [] => .exn
    | c0 :: rest =>
      let piece_char := if py_is_upper c0 then c0 else 'P'
      let mp0 := if py_is_upper c0 then rest else c0 :: rest
      let piece := if is_white_turn then py_upper piece_char else py_lower piece_char
      let is_capture := mp0.contains 'x'
      let mp := mp0.filter (fun c => c != 'x')
      if mp.length < 2 then .ok none
      else
        let dest_square := mp.drop (mp.length - 2)
        match square_to_coords dest_square with
        | .exn => .ok none
        | .ok (to_rank, to_file) =>
          let disambig := mp.take (mp.length - 2)
          let ffh := last_file_hint disambig
          let frh := last_rank_hint disambig
          match find_piece piece to_rank to_file ffh frh is_white_turn is_capture b with
          | .exn => .exn
          | .ok (some from_pos) => .ok (some (from_pos, (to_rank, to_file), piece))
          | .ok none => .ok none

/-- `ChessBoard.parse_move(move, is_white_turn)`, reading the grid `b`. -/
def parse_move (mv : List Char) (is_white_turn : Bool) (b : Board) :
    PRes (Option ((Int × Int) × (Int × Int) × Char)) :=
  parse_move_cleaned (cleaned_move mv) is_white_turn b

/-- The castling-rights bookkeeping at the end of a normal make_move:
king moves and rook moves from a home corner set the matching flag. -/
def update_flags (moving_piece : Char) (from_rank from_file : Int) (s : BState) : BState :=
  if moving_piece = 'K' then { s with white_king_moved := true }
  else if moving_piece = 'k' then { s with black_king_moved := true }
  else if moving_piece = 'R' then
    if from_rank = 7 ∧ from_file = 0 then { s with white_rook_a_moved := true }
    else if from_rank = 7 ∧ from_file = 7 then { s with white_rook_h_moved := true }
    else s
  else if moving_piece = 'r' then
    if from_rank = 0 ∧ from_file = 0 then { s with black_rook_a_moved := true }
    else if from_rank = 0 ∧ from_file = 7 then { s with black_rook_h_moved := true }
    else s
  else s

/-- The kingside-castling block of make_move: four cell writes in source
order, then the mover's king-moved flag.  A write that raises leaves the
earlier writes in place, as Python's in-place mutation would. -/
def castle_kingside (s : BState) (is_white_turn : Bool) : PRes Bool × BState :=
  let rank : Int := if is_white_turn then 7 else 0
  match set_cell s.board rank 4 '.' with
  | .exn => (.exn, s)
  | .ok b1 =>
    match set_cell b1 rank 6 (if is_white_turn then 'K' else 'k') with
    | .exn => (.exn, { s with board := b1 })
    | .ok b2 =>
      match set_cell b2 rank 7 '.' with
      | .exn => (.exn, { s with board := b2 })
      | .ok b3 =>
        match set_cell b3 rank 5 (if is_white_turn then 'R' else 'r') with
        | .exn => (.exn, { s with board := b3 })
        | .ok b4 =>
          if is_white_turn then (.ok true, { s with board := b4, white_king_moved := true })
          else (.ok true, { s with board := b4, black_king_moved := true })

/-- The queenside-castling block of make_move. -/
def castle_queenside (s : BState) (is_white_turn : Bool) : PRes Bool × BState :=
  let rank : Int := if is_white_turn then 7 else 0
  match set_cell s.board rank 4 '.' with
  | .exn => (.exn, s)
  | .ok b1 =>
    match set_cell b1 rank 2 (if is_white_turn then 'K' else 'k') with
    | .exn => (.exn, { s with board := b1 })
    | .ok b2 =>
      match set_cell b2 rank 0 '.' with
      | .exn => (.exn, { s with board := b2 })
      | .ok b3 =>
        match set_cell b3 rank 3 (if is_white_turn then 'R' else 'r') with
        | .exn => (.exn, { s with board := b3 })
        | .ok b4 =>
          if is_white_turn then (.ok true, { s with board := b4, white_king_moved := true })
          else (.ok true, { s with board := b4, black_king_moved := true })

/-- `ChessBoard.make_move(move, is_white_turn)`: only '+' and '#' are
removed up front; the castling branches compare that partially cleaned
text against the castling tokens; otherwise origin is cleared, the moved
piece is written to the destination, and the flags are updated.  The
returned state is the object state when the call returns or raises. -/
def make_move (mv : List Char) (is_white_turn : Bool) (s : BState) : PRes Bool × BState :=
  let move := mv.filter (fun c => !(c == '+' || c == '#'))
  match parse_move move is_white_turn s.board with
  | .exn => (.exn, s)
  | .ok none => (.ok false, s)
  | .ok (some ((from_rank, from_file), (to_rank, to_file), _piece)) =>
    if ks_castle move then castle_kingside s is_white_turn
    else if qs_castle move then castle_queenside s is_white_turn
    else
      match cell s.board from_rank from_file with
      | .exn => (.exn, s)
      | .ok moving_piece =>
        match set_cell s.board from_rank from_file '.' with
        | .exn => (.exn, s)
        | .ok b1 =>
          match set_cell b1 to_rank to_file moving_piece with
          | .exn => (.exn, { s with board := b1 })
          | .ok b2 =>
            (.ok true, update_flags moving_piece from_rank from_file { s with board := b2 })

/-- The method `parse_move` as a transformer of the object state.  Lines
53-110 of the source contain no assignment to any `self` field, so the
translation returns the state it was given. -/
def run_parse_move (mv : List Char) (is_white_turn : Bool) (s : BState) :
    PRes (Option ((Int × Int) × (Int × Int) × Char)) × BState :=
  (parse_move mv is_white_turn s.board, s)

/-- The method `find_piece` as a transformer of the object state.  Lines
112-240 of the source contain no assignment to any `self` field, so the
translation returns the state it was given. -/
def run_find_piece (piece : Char) (to_rank to_file : Int)
    (from_file_hint from_rank_hint : Option Int)
    (is_white_turn is_capture : Bool) (s : BState) :
    PRes (Option (Int × Int)) × BState :=
  (find_piece piece to_rank to_file from_file_hint from_rank_hint
    is_white_turn is_capture s.board, s)


/-- The i-th file letter, uppercase or lowercase: the grammar's
"one lowercase-or-any-case file letter a-h". -/
def file_letter (up : Bool) (i : Fin 8) : Char :=
  Char.ofNat ((if up then 65 else 97) + i.val)

/-- The i-th rank digit: the grammar's "one rank digit 1-8". -/
def rank_digit (i : Fin 8) : Char := Char.ofNat (49 + i.val)

/-- Composition square -> coordinates -> square (the empty list stands for
a raised exception, which never occurs on valid square strings). -/
def square_round_trip (s : List Char) : List Char :=
  match square_to_coords s with
  | .ok (r, f) => coords_to_square r f
  | .exn => []

/-- A board whose white back rank has f1 and g1 cleared, so that kingside
castling is geometrically available; all castling flags still false. -/
def castle_ready : BState :=
  ⟨[['r', 'n', 'b', 'q', 'k', 'b', 'n', 'r'],
    ['p', 'p', 'p', 'p', 'p', 'p', 'p', 'p'],
    ['.', '.', '.', '.', '.', '.', '.', '.'],
    ['.', '.', '.', '.', '.', '.', '.', '.'],
    ['.', '.', '.', '.', '.', '.', '.', '.'],
    ['.', '.', '.', '.', '.', '.', '.', '.'],
    ['P', 'P', 'P', 'P', 'P', 'P', 'P', 'P'],
    ['R', 'N', 'B', 'Q', 'K', '.', '.', 'R']],
   false, false, false, false, false, false⟩

/-- An almost-empty board with a lone white bishop on (3, 3). -/
def open_board : Board :=
  [['.', '.', '.', '.', '.', '.', '.', '.'],
   ['.', '.', '.', '.', '.', '.', '.', '.'],
   ['.', '.', '.', '.', '.', '.', '.', '.'],
   ['.', '.', '.', 'B', '.', '.', '.', '.'],
   ['.', '.', '.', '.', '.', '.', '.', '.'],
   ['.', '.', '.', '.', '.', '.', '.', '.'],
   ['.', '.', '.', '.', '.', '.', '.', '.'],
   ['.', '.', '.', '.', '.', '.', '.', '.']]

/-- The ray directions find_piece enumerates for each sliding piece type. -/
def slider_dirs (pt : Char) : List (Int × Int) :=
  if pt = 'B' then bishop_dirs else if pt = 'R' then rook_dirs else queen_dirs

/-- Flag-wise order between two states: each castling flag of the first is
at most (false ≤ true) the matching flag of the second. -/
def flags_le (s1 s2 : BState) : Prop :=
  s1.white_king_moved ≤ s2.white_king_moved ∧
  s1.black_king_moved ≤ s2.black_king_moved ∧
  s1.white_rook_a_moved ≤ s2.white_rook_a_moved ∧
  s1.white_rook_h_moved ≤ s2.white_rook_h_moved ∧
  s1.black_rook_a_moved ≤ s2.black_rook_a_moved ∧
  s1.black_rook_h_moved ≤ s2.black_rook_h_moved

-- quick sanity checks of the coordinate maps
example : square_to_coords ['e', '4'] = .ok (4, 4) := by decide
example : coords_to_square 4 4 = ['e', '4'] := by decide
example : square_to_coords ['i', '7'] = .ok (1, 8) := by decide

-- find_piece sanity checks against hand-traced source behavior
example : find_piece 'P' 4 4 none none true false init_board = .ok (some (6, 4)) := by decide
example : find_piece 'N' 5 5 none none true false init_board = .ok (some (7, 6)) := by decide
example : find_piece 'n' 1 8 none none false false init_board = .ok (some (0, 6)) := by decide

-- parse/make sanity checks
example : parse_move ['e', '4'] true init_board = .ok (some ((6, 4), (4, 4), 'P')) := by decide
example : parse_move ['N', 'f', '3'] true init_board = .ok (some ((7, 6), (5, 5), 'N')) := by decide
example : parse_move [] true init_board = .exn := by decide
example : parse_move ['+'] true init_board = .exn := by decide
example : parse_move ['x'] true init_board = .ok none := by decide
example : (make_move ['e', '4'] true reset_state).1 = .ok true := by decide

/-- A list keeps its last element when fewer than all elements are dropped. -/
lemma getLast?_drop_of_lt {α : Type} (l : List α) (n : Nat) (h : n < l.length) :
    (l.drop n).getLast? = l.getLast? := by
  rw [List.getLast?_eq_head?_reverse, List.getLast?_eq_head?_reverse, List.reverse_drop]
  cases hr : l.reverse with
  | nil =>
    have hl : l = [] := by simpa using congrArg List.reverse hr
    subst hl; simp at h
  | cons a t =>
    have hn : l.length - n = (l.length - n - 1) + 1 := by omega
    rw [hn, List.take_succ_cons]
    simp

/-- A list unchanged by `dropWhile` stays unchanged when an element the
predicate rejects is appended. -/
lemma dropWhile_fixed_append {p : Char → Bool} {mv : List Char} (a : Char)
    (h : mv.dropWhile p = mv) (ha : p a = false) :
    (mv ++ [a]).dropWhile p = mv ++ [a] := by
  cases mv with
  | nil =>
    rw [List.nil_append]
    exact List.dropWhile_cons_of_neg (by simp [ha])
  | cons c t =>
    have hc : ¬p c = true := by
      intro hb
      rw [List.dropWhile_cons_of_pos hb] at h
      have hlen := congrArg List.length h
      have hle := (List.dropWhile_suffix p (l := t)).length_le
      simp at hlen
      omega
    rw [List.cons_append, List.dropWhile_cons_of_neg hc]

/-- C1: for coordinates in range, `square_to_coords` inverts
`coords_to_square`; every valid square string (either case) round-trips to
its lowercase form; and on lowercase valid squares the string-to-coordinates
map is injective — a bijection over the 64 squares. -/
theorem c1_square_coords_inverse_bijection :
    (∀ r f : Int, 0 ≤ r → r < 8 → 0 ≤ f → f < 8 →
      square_to_coords (coords_to_square r f) = .ok (r, f)) ∧
    (∀ (up : Bool) (ci di : Fin 8),
      square_round_trip [file_letter up ci, rank_digit di] =
        [file_letter false ci, rank_digit di]) ∧
    (∀ ci di cj dj : Fin 8,
      square_to_coords [file_letter false ci, rank_digit di] =
        square_to_coords [file_letter false cj, rank_digit dj] →
      ci = cj ∧ di = dj) := by
  refine ⟨?_, by decide, by decide⟩
  intro r f h1 h2 h3 h4
  interval_cases r <;> interval_cases f <;> decide

/-- Witness for C1 at the concrete square e2 = (6, 4). -/
theorem c1_square_coords_witness :
    square_to_coords (coords_to_square 6 4) = .ok (6, 4) :=
  c1_square_coords_inverse_bijection.1 6 4 (by norm_num) (by norm_num)
    (by norm_num) (by norm_num)

/-- C2: from the start, White's "e4" parses to origin (6,4), destination
(4,4), and applying it empties (6,4) and puts a white pawn on (4,4). -/
theorem c2_e4_from_start :
    parse_move ['e', '4'] true init_board = .ok (some ((6, 4), (4, 4), 'P')) ∧
    (make_move ['e', '4'] true reset_state).1 = .ok true ∧
    cell (make_move ['e', '4'] true reset_state).2.board 6 4 = .ok '.' ∧
    cell (make_move ['e', '4'] true reset_state).2.board 4 4 = .ok 'P' := by
  decide

/-- C3 failing inputs: on the empty string, on a whitespace-only string and
on strings of annotation characters only, parse_move evaluates `move[0]`
on an empty string and raises IndexError instead of returning None, for
both sides to move. -/
theorem c3_empty_after_strip_raises :
    parse_move [] true init_board = .exn ∧
    parse_move [] false init_board = .exn ∧
    parse_move [' '] true init_board = .exn ∧
    parse_move ['+', '#', '!', '?'] true init_board = .exn ∧
    parse_move ['!'] false init_board = .exn :=
  ⟨by decide, by decide, by decide, by decide, by decide⟩

/-- C4 counterexample: "Ni7" has destination token "i7", whose file letter
is past 'h', yet parse_move for Black succeeds (the knight-offset scan
finds the g8 knight), returning a resolved move rather than None. -/
theorem c4_counterexample_invalid_square_succeeds :
    parse_move ['N', 'i', '7'] false init_board = .ok (some ((0, 6), (1, 8), 'n')) ∧
    parse_move ['N', 'i', '7'] false init_board ≠ .ok none := by
  decide

/-- C4 as amended: for every non-castling input that still has at least two
characters once the piece letter and capture markers are removed, if the
last remaining character is not a decimal digit then square_to_coords
raises, the handler catches, and parse_move returns None — this is the
only input class the InvalidSquare path rejects.  (Destination tokens with
a file letter past 'h' or digit 0/9 are NOT rejected; see the
counterexample.) -/
theorem c4_amended_nondigit_returns_none :
    ∀ (mv : List Char) (t : Bool) (b : Board),
      ks_castle (cleaned_move mv) = false →
      qs_castle (cleaned_move mv) = false →
      cleaned_move mv ≠ [] →
      2 ≤ (move_part_no_x (cleaned_move mv)).length →
      py_is_digit ((move_part_no_x (cleaned_move mv)).getLastD ' ') = false →
      parse_move mv t b = .ok none := by
  intro mv t b hks hqs hne hlen hdig
  unfold parse_move
  obtain ⟨c0, rest, hm⟩ := List.exists_cons_of_ne_nil hne
  rw [hm] at hks hqs hlen hdig ⊢
  simp only [move_part_no_x] at hlen hdig
  unfold parse_move_cleaned
  simp only [hks, hqs, Bool.false_eq_true, if_false]
  set mp := (if py_is_upper c0 then rest else c0 :: rest).filter (fun c => c != 'x')
    with hmp
  have hnl : ¬(mp.length < 2) := by omega
  rw [if_neg hnl]
  have hlt : mp.length - 2 < mp.length := by omega
  have hdl : (mp.drop (mp.length - 2)).getLast? = mp.getLast? :=
    getLast?_drop_of_lt mp (mp.length - 2) hlt
  have hdlen : (mp.drop (mp.length - 2)).length = 2 := by
    rw [List.length_drop]; omega
  cases hd : mp.drop (mp.length - 2) with
  | nil => rw [hd] at hdlen; simp at hdlen
  | cons d0 dtail =>
    rw [hd] at hdl
    cases hlast : mp.getLast? with
    | none =>
      rw [hlast] at hdl
      simp at hdl
    | some c =>
      have hcd : py_is_digit c = false := by
        rw [List.getLastD_eq_getLast?, hlast] at hdig
        simpa using hdig
      have hsq : square_to_coords (d0 :: dtail) = .exn := by
        rw [hlast] at hdl
        unfold square_to_coords
        rw [List.head?_cons, hdl]
        simp only [py_int_char, hcd, Bool.false_eq_true, if_false]
      rw [hsq]

/-- Witness for the amended C4 at the concrete input "ee". -/
theorem c4_amended_witness : parse_move ['e', 'e'] true init_board = .ok none :=
  c4_amended_nondigit_returns_none ['e', 'e'] true init_board
    (by decide) (by decide) (by decide) (by decide) (by decide)

/-- C5 counterexample: on a castle-ready board, "O-O!" is not applied like
"O-O" — make_move only removes '+' and '#' before its castling test, so
"O-O!" is applied as a bare king move and the rook stays on h1. -/
theorem c5_counterexample_bang_castle :
    make_move ['O', '-', 'O', '!'] true castle_ready ≠
      make_move ['O', '-', 'O'] true castle_ready := by
  decide

/-- A move text with no leading and no trailing whitespace is a fixed
point of `py_strip`. -/
lemma py_strip_fixed {mv : List Char}
    (h1 : mv.dropWhile py_is_space = mv)
    (h2 : mv.reverse.dropWhile py_is_space = mv.reverse) :
    py_strip mv = mv := by
  unfold py_strip
  rw [h1, h2, List.reverse_reverse]

/-- Appending a non-whitespace character to a text with no leading
whitespace gives a fixed point of `py_strip`. -/
lemma py_strip_append_nonspace {mv : List Char} {a : Char}
    (h1 : mv.dropWhile py_is_space = mv) (ha : py_is_space a = false) :
    py_strip (mv ++ [a]) = mv ++ [a] := by
  unfold py_strip
  rw [dropWhile_fixed_append a h1 ha, List.reverse_append]
  simp only [List.reverse_cons, List.reverse_nil, List.nil_append, List.singleton_append]
  rw [List.dropWhile_cons_of_neg (by simp [ha])]
  simp

/-- Appending one annotation character to a whitespace-free move text does
not change the cleaned move the parser works on. -/
lemma cleaned_append_mark {mv : List Char} {a : Char}
    (hmark : a = '+' ∨ a = '#' ∨ a = '!' ∨ a = '?')
    (h1 : mv.dropWhile py_is_space = mv)
    (h2 : mv.reverse.dropWhile py_is_space = mv.reverse) :
    cleaned_move (mv ++ [a]) = cleaned_move mv := by
  have hsp : py_is_space a = false := by
    rcases hmark with h | h | h | h <;> subst h <;> decide
  unfold cleaned_move
  rw [py_strip_append_nonspace h1 hsp, py_strip_fixed h1 h2]
  unfold strip_marks
  rw [List.filter_append]
  have hz : List.filter (fun c => !(c == '+' || c == '#' || c == '!' || c == '?')) [a] = [] := by
    rcases hmark with h | h | h | h <;> subst h <;> decide
  rw [hz, List.append_nil]

/-- C5 as amended: a trailing '+' or '#' never changes make_move (they are
removed before everything, castling test included); a trailing '!' or '?'
(like '+' or '#') never changes parse_move's resolution on move texts with
no surrounding whitespace; but '!' and '?' CAN change make_move's board
mutation — castling notation with a trailing '!' or '?' resolves as
castling yet is applied as a bare king move (see the counterexample). -/
theorem c5_amended_annotation_stripping :
    (∀ (mv : List Char) (t : Bool) (s : BState),
      make_move (mv ++ ['+']) t s = make_move mv t s ∧
      make_move (mv ++ ['#']) t s = make_move mv t s) ∧
    (∀ (mv : List Char) (t : Bool) (b : Board) (a : Char),
      (a = '+' ∨ a = '#' ∨ a = '!' ∨ a = '?') →
      mv.dropWhile py_is_space = mv →
      mv.reverse.dropWhile py_is_space = mv.reverse →
      parse_move (mv ++ [a]) t b = parse_move mv t b) := by
  constructor
  · intro mv t s
    constructor <;>
      · simp only [make_move, List.filter_append]
        norm_num
  · intro mv t b a hmark h1 h2
    unfold parse_move
    rw [cleaned_append_mark hmark h1 h2]

/-- Witness for the amended C5 at the concrete input "e4" with '!'. -/
theorem c5_amended_witness :
    parse_move ['e', '4', '!'] true init_board = parse_move ['e', '4'] true init_board :=
  c5_amended_annotation_stripping.2 ['e', '4'] true init_board '!'
    (by norm_num) (by decide) (by decide)

/-- C9: for a pawn intent with the capture flag set, when the capture
candidate scan finds no pawn, find_piece behaves exactly as with the
capture flag clear: resolution falls through to the push rules. -/
theorem c9_pawn_capture_falls_through :
    ∀ (piece : Char) (to_rank to_file : Int) (fh rh : Option Int)
      (t : Bool) (b : Board),
      py_upper piece = 'P' →
      pawn_cap_scan b (if t then 'P' else 'p')
        (if t then to_rank + 1 else to_rank - 1)
        (match fh with
         | some h => [h]
         | none => [to_file - 1, to_file + 1]) = .ok none →
      find_piece piece to_rank to_file fh rh t true b =
        find_piece piece to_rank to_file fh rh t false b := by
  intro piece to_rank to_file fh rh t b hp hscan
  cases t <;> simp at hscan <;> simp [find_piece, hp, hscan]

/-- Witness for C9: "exd4"-style capture intent from the start position
(no black pawn on d-adjacent files at rank 5) resolves like a plain push. -/
theorem c9_pawn_capture_witness :
    find_piece 'P' 4 4 none none true true init_board =
      find_piece 'P' 4 4 none none true false init_board :=
  c9_pawn_capture_falls_through 'P' 4 4 none none true init_board
    (by decide) (by decide)

/-- `py_idx` at a natural index is plain list lookup. -/
lemma py_idx_nat {α : Type} (xs : List α) (n : Nat) :
    py_idx xs (n : Int) =
      (match xs.get? n with
       | some a => PRes.ok a
       | none => PRes.exn) := by
  simp only [py_idx]
  rw [if_neg (by omega : ¬((n : Int) < 0)), if_pos (Int.natCast_nonneg n),
    Int.toNat_natCast]

/-- `py_set` at an in-range natural index is plain list update. -/
lemma py_set_nat {α : Type} (xs : List α) (n : Nat) (v : α) (h : n < xs.length) :
    py_set xs (n : Int) v = .ok (xs.set n v) := by
  simp only [py_set]
  rw [if_neg (by omega : ¬((n : Int) < 0))]
  have hc : (decide ((0 : Int) ≤ (n : Int)) && decide ((n : Int) < (xs.length : Int))) = true := by
    simp only [Bool.and_eq_true, decide_eq_true_eq]
    exact ⟨Int.natCast_nonneg n, by exact_mod_cast h⟩
  rw [if_pos hc, Int.toNat_natCast]

/-- `cell` at natural coordinates is nested list lookup. -/
lemma cell_nat (b : Board) (r f : Nat) :
    cell b (r : Int) (f : Int) =
      (match b.get? r with
       | some row =>
         (match row.get? f with
          | some c => PRes.ok c
          | none => PRes.exn)
       | none => PRes.exn) := by
  simp only [cell, py_idx_nat]
  cases b.get? r with
  | none => rfl
  | some row =>
    simp only [py_idx_nat]
    cases row.get? f <;> rfl

/-- `set_cell` at in-range natural coordinates updates the addressed row. -/
lemma set_cell_nat (b : Board) (r f : Nat) (v : Char) (row : List Char)
    (hrow : b.get? r = some row) (hf : f < row.length) :
    set_cell b (r : Int) (f : Int) v = .ok (b.set r (row.set f v)) := by
  have hr : r < b.length := (List.get?_eq_some.mp hrow).1
  simp only [set_cell, py_idx_nat, hrow, py_set_nat row f v hf,
    py_set_nat b r (row.set f v) hr]

/-- Reading back the written index of a list update. -/
lemma get?_set_same {α : Type} (l : List α) (n : Nat) (a x : α)
    (h : l.get? n = some x) : (l.set n a).get? n = some a := by
  rw [List.get?_set_eq, h]; rfl

/-- C6: whenever the white king is on e1, the h-rook on h1, f1 and g1 are
empty and the white king/h-rook flags are clear, applying "O-O" for White
puts the king on g1 and the rook on f1, empties e1 and h1, and sets the
white-king-moved flag; a subsequent reset restores the start state with
every flag false. -/
theorem c6_kingside_castle_then_reset :
    ∀ s : BState,
      cell s.board 7 4 = .ok 'K' →
      cell s.board 7 7 = .ok 'R' →
      cell s.board 7 5 = .ok '.' →
      cell s.board 7 6 = .ok '.' →
      s.white_king_moved = false →
      s.white_rook_h_moved = false →
      (make_move ['O', '-', 'O'] true s).1 = .ok true ∧
      cell (make_move ['O', '-', 'O'] true s).2.board 7 4 = .ok '.' ∧
      cell (make_move ['O', '-', 'O'] true s).2.board 7 5 = .ok 'R' ∧
      cell (make_move ['O', '-', 'O'] true s).2.board 7 6 = .ok 'K' ∧
      cell (make_move ['O', '-', 'O'] true s).2.board 7 7 = .ok '.' ∧
      (make_move ['O', '-', 'O'] true s).2.white_king_moved = true ∧
      reset (make_move ['O', '-', 'O'] true s).2 = reset_state ∧
      reset_state.board = init_board ∧
      reset_state.white_king_moved = false ∧
      reset_state.black_king_moved = false ∧
      reset_state.white_rook_a_moved = false ∧
      reset_state.white_rook_h_moved = false ∧
      reset_state.black_rook_a_moved = false ∧
      reset_state.black_rook_h_moved = false := by
  intro s h74 h77 h75 h76 hwk hwrh
  have e0 : ((0 : Nat) : Int) = (0 : Int) := by norm_num
  have e4 : ((4 : Nat) : Int) = (4 : Int) := by norm_num
  have e5 : ((5 : Nat) : Int) = (5 : Int) := by norm_num
  have e6 : ((6 : Nat) : Int) = (6 : Int) := by norm_num
  have e7 : ((7 : Nat) : Int) = (7 : Int) := by norm_num
  rw [← e7, ← e4, cell_nat] at h74
  rw [← e7, cell_nat] at h77
  rw [← e7, ← e5, cell_nat] at h75
  rw [← e7, ← e6, cell_nat] at h76
  cases hbr : s.board.get? 7 with
  | none => rw [hbr] at h74; simp at h74
  | some row =>
  rw [hbr] at h74 h77 h75 h76
  have h74b : (match row.get? 4 with
    | some c => PRes.ok c
    | none => PRes.exn) = PRes.ok 'K' := h74
  have h77b : (match row.get? 7 with
    | some c => PRes.ok c
    | none => PRes.exn) = PRes.ok 'R' := h77
  have h75b : (match row.get? 5 with
    | some c => PRes.ok c
    | none => PRes.exn) = PRes.ok '.' := h75
  have h76b : (match row.get? 6 with
    | some c => PRes.ok c
    | none => PRes.exn) = PRes.ok '.' := h76
  cases hr4 : row.get? 4 with
  | none => rw [hr4] at h74b; simp at h74b
  | some c4 =>
  cases hr7 : row.get? 7 with
  | none => rw [hr7] at h77b; simp at h77b
  | some c7 =>
  cases hr5 : row.get? 5 with
  | none => rw [hr5] at h75b; simp at h75b
  | some c5 =>
  cases hr6 : row.get? 6 with
  | none => rw [hr6] at h76b; simp at h76b
  | some c6 =>
  rw [hr4] at h74b; rw [hr7] at h77b; rw [hr5] at h75b; rw [hr6] at h76b
  have hc4 : c4 = 'K' := by simpa using h74b
  have hc7 : c7 = 'R' := by simpa using h77b
  have hc5 : c5 = '.' := by simpa using h75b
  have hc6 : c6 = '.' := by simpa using h76b
  subst hc4 hc7 hc5 hc6
  have hlen : 7 < row.length := (List.get?_eq_some.mp hr7).1
  -- make_move on "O-O" reaches the kingside-castling block directly
  have hmm : make_move ['O', '-', 'O'] true s = castle_kingside s true := rfl
  -- evaluate the four cell writes of the castling block
  have hs1 : set_cell s.board (7 : Int) (4 : Int) '.' =
      .ok (s.board.set 7 (row.set 4 '.')) := by
    rw [← e7, ← e4]; exact set_cell_nat s.board 7 4 '.' row hbr (by omega)
  have hb1r : (s.board.set 7 (row.set 4 '.')).get? 7 = some (row.set 4 '.') :=
    get?_set_same s.board 7 _ row hbr
  have hs2 : set_cell (s.board.set 7 (row.set 4 '.')) (7 : Int) (6 : Int) 'K' =
      .ok ((s.board.set 7 (row.set 4 '.')).set 7 ((row.set 4 '.').set 6 'K')) := by
    rw [← e7, ← e6]
    exact set_cell_nat _ 7 6 'K' _ hb1r (by simp [List.length_set]; omega)
  have hb2 : ((s.board.set 7 (row.set 4 '.')).set 7 ((row.set 4 '.').set 6 'K')) =
      s.board.set 7 ((row.set 4 '.').set 6 'K') := List.set_set _ _ _ _
  have hb2r : (s.board.set 7 ((row.set 4 '.').set 6 'K')).get? 7 =
      some ((row.set 4 '.').set 6 'K') := get?_set_same s.board 7 _ row hbr
  have hs3 : set_cell (s.board.set 7 ((row.set 4 '.').set 6 'K')) (7 : Int) (7 : Int) '.' =
      .ok ((s.board.set 7 ((row.set 4 '.').set 6 'K')).set 7
        (((row.set 4 '.').set 6 'K').set 7 '.')) := by
    rw [← e7]
    exact set_cell_nat _ 7 7 '.' _ hb2r (by simp [List.length_set]; omega)
  have hb3 : ((s.board.set 7 ((row.set 4 '.').set 6 'K')).set 7
      (((row.set 4 '.').set 6 'K').set 7 '.')) =
      s.board.set 7 (((row.set 4 '.').set 6 'K').set 7 '.') := List.set_set _ _ _ _
  have hb3r : (s.board.set 7 (((row.set 4 '.').set 6 'K').set 7 '.')).get? 7 =
      some (((row.set 4 '.').set 6 'K').set 7 '.') := get?_set_same s.board 7 _ row hbr
  have hs4 : set_cell (s.board.set 7 (((row.set 4 '.').set 6 'K').set 7 '.'))
      (7 : Int) (5 : Int) 'R' =
      .ok ((s.board.set 7 (((row.set 4 '.').set 6 'K').set 7 '.')).set 7
        ((((row.set 4 '.').set 6 'K').set 7 '.').set 5 'R')) := by
    rw [← e7, ← e5]
    exact set_cell_nat _ 7 5 'R' _ hb3r (by simp [List.length_set]; omega)
  have hb4 : ((s.board.set 7 (((row.set 4 '.').set 6 'K').set 7 '.')).set 7
      ((((row.set 4 '.').set 6 'K').set 7 '.').set 5 'R')) =
      s.board.set 7 ((((row.set 4 '.').set 6 'K').set 7 '.').set 5 'R') :=
    List.set_set _ _ _ _
  have hck : castle_kingside s true =
      (.ok true,
       { s with
         board := s.board.set 7 ((((row.set 4 '.').set 6 'K').set 7 '.').set 5 'R'),
         white_king_moved := true }) := by
    simp only [castle_kingside, if_pos, if_true, hs1, hs2, hb2, hs3, hb3, hs4, hb4]
  -- the final row and its reads
  have hfr : (s.board.set 7 ((((row.set 4 '.').set 6 'K').set 7 '.').set 5 'R')).get? 7 =
      some ((((row.set 4 '.').set 6 'K').set 7 '.').set 5 'R') :=
    get?_set_same s.board 7 _ row hbr
  have hread4 : ((((row.set 4 '.').set 6 'K').set 7 '.').set 5 'R').get? 4 = some '.' := by
    rw [List.get?_set_ne _ _ (by omega : (5 : Nat) ≠ 4),
      List.get?_set_ne _ _ (by omega : (7 : Nat) ≠ 4),
      List.get?_set_ne _ _ (by omega : (6 : Nat) ≠ 4)]
    exact get?_set_same row 4 '.' 'K' hr4
  have hread5 : ((((row.set 4 '.').set 6 'K').set 7 '.').set 5 'R').get? 5 = some 'R' := by
    apply get?_set_same
    rw [List.get?_set_ne _ _ (by omega : (7 : Nat) ≠ 5),
      List.get?_set_ne _ _ (by omega : (6 : Nat) ≠ 5),
      List.get?_set_ne _ _ (by omega : (4 : Nat) ≠ 5)]
    exact hr5
  have hread6 : ((((row.set 4 '.').set 6 'K').set 7 '.').set 5 'R').get? 6 = some 'K' := by
    rw [List.get?_set_ne _ _ (by omega : (5 : Nat) ≠ 6),
      List.get?_set_ne _ _ (by omega : (7 : Nat) ≠ 6)]
    apply get?_set_same
    rw [List.get?_set_ne _ _ (by omega : (4 : Nat) ≠ 6)]
    exact hr6
  have hread7 : ((((row.set 4 '.').set 6 'K').set 7 '.').set 5 'R').get? 7 = some '.' := by
    rw [List.get?_set_ne _ _ (by omega : (5 : Nat) ≠ 7)]
    apply get?_set_same
    rw [List.get?_set_ne _ _ (by omega : (6 : Nat) ≠ 7),
      List.get?_set_ne _ _ (by omega : (4 : Nat) ≠ 7)]
    exact hr7
  rw [hmm, hck]
  refine ⟨rfl, ?_, ?_, ?_, ?_, rfl, rfl, rfl, rfl, rfl, rfl, rfl, rfl, rfl⟩
  · rw [← e7, ← e4, cell_nat, hfr]
    have hx : (match ((((row.set 4 '.').set 6 'K').set 7 '.').set 5 'R').get? 4 with
      | some c => PRes.ok c
      | none => PRes.exn) = PRes.ok '.' := by rw [hread4]
    exact hx
  · rw [← e7, ← e5, cell_nat, hfr]
    have hx : (match ((((row.set 4 '.').set 6 'K').set 7 '.').set 5 'R').get? 5 with
      | some c => PRes.ok c
      | none => PRes.exn) = PRes.ok 'R' := by rw [hread5]
    exact hx
  · rw [← e7, ← e6, cell_nat, hfr]
    have hx : (match ((((row.set 4 '.').set 6 'K').set 7 '.').set 5 'R').get? 6 with
      | some c => PRes.ok c
      | none => PRes.exn) = PRes.ok 'K' := by rw [hread6]
    exact hx
  · rw [← e7, cell_nat, hfr]
    have hx : (match ((((row.set 4 '.').set 6 'K').set 7 '.').set 5 'R').get? 7 with
      | some c => PRes.ok c
      | none => PRes.exn) = PRes.ok '.' := by rw [hread7]
    exact hx

/-- Witness for C6 at the concrete castle-ready state. -/
theorem c6_kingside_castle_witness :
    (make_move ['O', '-', 'O'] true castle_ready).1 = .ok true ∧
    cell (make_move ['O', '-', 'O'] true castle_ready).2.board 7 5 = .ok 'R' ∧
    (make_move ['O', '-', 'O'] true castle_ready).2.white_king_moved = true := by
  have h := c6_kingside_castle_then_reset castle_ready
    (by decide) (by decide) (by decide) (by decide) (by decide) (by decide)
  exact ⟨h.1, h.2.2.1, h.2.2.2.2.2.1⟩

/-- A successful `ray_scan` starting at (r, f) returns a square k steps
further along the direction, holding the sought piece, with every earlier
square of the walk (the start included) empty. -/
lemma ray_scan_spec :
    ∀ (fuel : Nat) (b : Board) (piece : Char) (fh rh : Option Int)
      (dr df r f r0 f0 : Int),
      ray_scan b piece fh rh dr df fuel r f = .ok (some (r0, f0)) →
      ∃ k : Nat, r0 = r + dr * k ∧ f0 = f + df * k ∧
        cell b r0 f0 = .ok piece ∧
        ∀ j : Nat, j < k → cell b (r + dr * j) (f + df * j) = .ok '.' := by
  intro fuel
  induction fuel with
  | zero =>
    intro b piece fh rh dr df r f r0 f0 h
    exact absurd h (by simp [ray_scan])
  | succ n ih =>
    intro b piece fh rh dr df r f r0 f0 h
    rw [ray_scan] at h
    split at h
    case isTrue hb =>
      cases hc : cell b r f with
      | exn => rw [hc] at h; simp at h
      | ok c =>
        rw [hc] at h
        have h2 : (if c == piece && hint_match rh r && hint_match fh f then
            PRes.ok (some (r, f))
          else if c != '.' then PRes.ok none
          else ray_scan b piece fh rh dr df n (r + dr) (f + df)) =
            PRes.ok (some (r0, f0)) := h
        split at h2
        case isTrue hcond =>
          have hrf : r = r0 ∧ f = f0 := by
            have := h2
            simp only [PRes.ok.injEq, Option.some.injEq, Prod.mk.injEq] at this
            exact this
          obtain ⟨hr0, hf0⟩ := hrf
          subst hr0; subst hf0
          have hcp : c = piece := by
            simp only [Bool.and_eq_true, beq_iff_eq] at hcond
            exact hcond.1.1
          refine ⟨0, by simp, by simp, ?_, by omega⟩
          rw [hc, hcp]
        case isFalse hcond =>
          split at h2
          case isTrue => simp at h2
          case isFalse hdot =>
            have hcdot : c = '.' := by
              simp only [bne_iff_ne, ne_eq, not_not] at hdot
              exact hdot
            obtain ⟨k, hk1, hk2, hk3, hk4⟩ :=
              ih b piece fh rh dr df (r + dr) (f + df) r0 f0 h2
            refine ⟨k + 1, ?_, ?_, hk3, ?_⟩
            · rw [hk1]; push_cast; ring
            · rw [hk2]; push_cast; ring
            · intro j hj
              cases j with
              | zero =>
                have hz : cell b (r + dr * ((0 : Nat) : Int)) (f + df * ((0 : Nat) : Int)) =
                    cell b r f := by norm_num
                rw [hz, hc, hcdot]
              | succ jj =>
                have hjj : jj < k := by omega
                have hmid := hk4 jj hjj
                have her : r + dr * ((jj + 1 : Nat) : Int) = (r + dr) + dr * (jj : Int) := by
                  push_cast; ring
                have hef : f + df * ((jj + 1 : Nat) : Int) = (f + df) + df * (jj : Int) := by
                  push_cast; ring
                rw [her, hef]
                exact hmid
    case isFalse => simp at h

/-- A successful `ray_dirs` comes from a successful `ray_scan` along one of
the enumerated directions, started one step out from the destination. -/
lemma ray_dirs_spec :
    ∀ (dirs : List (Int × Int)) (b : Board) (piece : Char)
      (to_rank to_file : Int) (fh rh : Option Int) (r0 f0 : Int),
      ray_dirs b piece to_rank to_file fh rh dirs = .ok (some (r0, f0)) →
      ∃ dr df : Int, (dr, df) ∈ dirs ∧
        ray_scan b piece fh rh dr df 16 (to_rank + dr) (to_file + df) =
          .ok (some (r0, f0)) := by
  intro dirs
  induction dirs with
  | nil =>
    intro b piece to_rank to_file fh rh r0 f0 h
    simp [ray_dirs] at h
  | cons d rest ih =>
    intro b piece to_rank to_file fh rh r0 f0 h
    obtain ⟨dr, df⟩ := d
    rw [ray_dirs] at h
    cases hs : ray_scan b piece fh rh dr df 16 (to_rank + dr) (to_file + df) with
    | exn => rw [hs] at h; simp at h
    | ok o =>
      cases o with
      | some p =>
        rw [hs] at h
        have hp : p = (r0, f0) := by simpa using h
        subst hp
        exact ⟨dr, df, List.mem_cons_self _ _, hs⟩
      | none =>
        rw [hs] at h
        obtain ⟨dr2, df2, hmem, hscan⟩ := ih b piece to_rank to_file fh rh r0 f0 h
        exact ⟨dr2, df2, List.mem_cons_of_mem _ hmem, hscan⟩

/-- C7: when find_piece resolves a bishop, rook or queen intent, the origin
it returns lies on one of that piece's rays from the destination, the
origin cell holds the piece, and every square strictly between destination
and origin is empty — a blocker always ends a ray. -/
theorem c7_slider_origin_on_clear_ray :
    ∀ (piece : Char) (to_rank to_file : Int) (fh rh : Option Int)
      (t cap : Bool) (b : Board) (r0 f0 : Int),
      (py_upper piece = 'B' ∨ py_upper piece = 'R' ∨ py_upper piece = 'Q') →
      find_piece piece to_rank to_file fh rh t cap b = .ok (some (r0, f0)) →
      ∃ dr df : Int, (dr, df) ∈ slider_dirs (py_upper piece) ∧
        ∃ k : Nat, 1 ≤ k ∧ r0 = to_rank + dr * k ∧ f0 = to_file + df * k ∧
          cell b r0 f0 = .ok piece ∧
          ∀ j : Nat, 1 ≤ j → j < k →
            cell b (to_rank + dr * j) (to_file + df * j) = .ok '.' := by
  intro piece to_rank to_file fh rh t cap b r0 f0 hp hf
  have hdirs : find_piece piece to_rank to_file fh rh t cap b =
      ray_dirs b piece to_rank to_file fh rh (slider_dirs (py_upper piece)) := by
    rcases hp with h | h | h <;> simp [find_piece, h, slider_dirs]
  rw [hdirs] at hf
  obtain ⟨dr, df, hmem, hscan⟩ :=
    ray_dirs_spec _ b piece to_rank to_file fh rh r0 f0 hf
  obtain ⟨k, hkr, hkf, hcell, hmid⟩ :=
    ray_scan_spec 16 b piece fh rh dr df (to_rank + dr) (to_file + df) r0 f0 hscan
  refine ⟨dr, df, hmem, k + 1, by omega, ?_, ?_, hcell, ?_⟩
  · rw [hkr]; push_cast; ring
  · rw [hkf]; push_cast; ring
  · intro j hj1 hjk
    have hjm : j - 1 < k := by omega
    have hmidj := hmid (j - 1) hjm
    have hcast : ((j - 1 : Nat) : Int) = (j : Int) - 1 := by omega
    have her : to_rank + dr * (j : Int) = (to_rank + dr) + dr * ((j - 1 : Nat) : Int) := by
      rw [hcast]; ring
    have hef : to_file + df * (j : Int) = (to_file + df) + df * ((j - 1 : Nat) : Int) := by
      rw [hcast]; ring
    rw [her, hef]
    exact hmidj

/-- Witness for C7: a lone bishop on (3,3) resolving destination (5,5). -/
theorem c7_slider_witness :
    ∃ dr df : Int, (dr, df) ∈ slider_dirs (py_upper 'B') ∧
      ∃ k : Nat, 1 ≤ k ∧ (3 : Int) = 5 + dr * k ∧ (3 : Int) = 5 + df * k ∧
        cell open_board 3 3 = .ok 'B' ∧
        ∀ j : Nat, 1 ≤ j → j < k →
          cell open_board (5 + dr * j) (5 + df * j) = .ok '.' :=
  c7_slider_origin_on_clear_ray 'B' 5 5 none none true false open_board 3 3
    (Or.inl (by decide)) (by decide)

lemma flags_le_refl (s : BState) : flags_le s s :=
  ⟨le_refl _, le_refl _, le_refl _, le_refl _, le_refl _, le_refl _⟩

lemma flags_le_board (s : BState) (b : Board) : flags_le s { s with board := b } :=
  ⟨le_refl _, le_refl _, le_refl _, le_refl _, le_refl _, le_refl _⟩

lemma flags_le_update_flags (mp : Char) (fr ff : Int) (s : BState) (b : Board) :
    flags_le s (update_flags mp fr ff { s with board := b }) := by
  unfold update_flags
  split_ifs <;> simp [flags_le, Bool.le_true]

lemma flags_le_castle_k (s : BState) (t : Bool) : flags_le s (castle_kingside s t).2 := by
  unfold castle_kingside flags_le
  cases t <;> dsimp only [reduceIte] <;> (repeat' split) <;> simp_all [Bool.le_true]

lemma flags_le_castle_q (s : BState) (t : Bool) : flags_le s (castle_queenside s t).2 := by
  unfold castle_queenside flags_le
  cases t <;> dsimp only [reduceIte] <;> (repeat' split) <;> simp_all [Bool.le_true]

/-- C8: make_move never lowers a castling flag — every flag true before a
call (normal move, castling, or a call that fails or raises partway) is
still true in the state the call leaves behind; and reset (the one
operation that clears flags) installs the all-false start state. -/
theorem c8_flags_monotone :
    ∀ (mv : List Char) (t : Bool) (s : BState),
      flags_le s (make_move mv t s).2 ∧ reset s = reset_state := by
  intro mv t s
  refine ⟨?_, rfl⟩
  simp only [make_move]
  cases hp : parse_move (List.filter (fun c => !(c == '+' || c == '#')) mv) t s.board with
  | exn => simp only [hp]; exact flags_le_refl s
  | ok o =>
    cases o with
    | none => simp only [hp]; exact flags_le_refl s
    | some pr =>
      obtain ⟨⟨fr, ff⟩, ⟨tr, tf⟩, pc⟩ := pr
      simp only [hp]
      split
      · exact flags_le_castle_k s t
      · split
        · exact flags_le_castle_q s t
        · cases hc : cell s.board fr ff with
          | exn => simp only [hc]; exact flags_le_refl s
          | ok mp =>
            simp only [hc]
            cases hs1 : set_cell s.board fr ff '.' with
            | exn => simp only [hs1]; exact flags_le_refl s
            | ok b1 =>
              simp only [hs1]
              cases hs2 : set_cell b1 tr tf mp with
              | exn => simp only [hs2]; exact flags_le_board s b1
              | ok b2 =>
                simp only [hs2]
                exact flags_le_update_flags mp fr ff s b2

/-- C10: the state-transformer forms of parse_move and find_piece return
the object state unchanged — neither method assigns to the grid or to any
castling flag; only make_move and reset mutate BState. -/
theorem c10_parse_find_frame :
    ∀ (mv : List Char) (piece : Char) (to_rank to_file : Int)
      (fh rh : Option Int) (t cap : Bool) (s : BState),
      (run_parse_move mv t s).2 = s ∧
      (run_find_piece piece to_rank to_file fh rh t cap s).2 = s :=
  fun _ _ _ _ _ _ _ _ _ => ⟨rfl, rfl⟩
